import Mathlib

/-!
Verification of `apps/go-redis-app/main.go`.

The program is a single `main` that

* creates a go-redis client for the server at `redis-go:6379` (lines 14-18),
* registers a handler for the pattern `"/health"` (lines 20-22) and one for the
  pattern `"/"` (lines 24-31) on `http.DefaultServeMux`,
* writes `0` under the key `"visits"` (line 33), and
* serves HTTP on port 8080 (line 34).

The development below is a shallow embedding of that program.  The Redis server is
explicit state (`redis.Server`), every handler is a function on that state, and the
library functions the program calls (`strconv.Atoi`, `strconv.FormatInt`, `path.Clean`,
`net/http`'s `ServeMux`) are modelled after their Go sources.  The Go type `int` is
taken to be 64 bits wide (`intSize`), with two's-complement wrap-around (`wrapInt`).
-/

deriving instance DecidableEq for Except

namespace GoRedisApp

/-! ## Go `int` -/

/-- Width of the Go type `int` on the 64-bit targets the program is built for. -/
def intSize : Nat := 64

/-- Largest value of the Go type `int`. -/
def maxInt : Int := 2 ^ (intSize - 1) - 1

/-- Smallest value of the Go type `int`. -/
def minInt : Int := -(2 ^ (intSize - 1))

/-- Result of a Go `int` operation whose mathematical value is `z`: the value is reduced
    modulo `2 ^ intSize` into the two's-complement range. -/
def wrapInt (z : Int) : Int := (z + 2 ^ (intSize - 1)) % 2 ^ intSize - 2 ^ (intSize - 1)

/-! ## `strconv` -/

namespace strconv

/-- The two errors of `strconv`: `ErrSyntax` and `ErrRange`. -/
inductive NumError where
  | ErrSyntax
  | ErrRange
deriving DecidableEq, Repr

/-- The byte `'0' + d`. -/
def digitByte (d : Nat) : Char := Char.ofNat (48 + d)

/-- Digit loop of `formatBits` for base 10: the digits of `u` are produced from the least
    significant one and put in front of what is already in the buffer `a`.  The first
    argument bounds the number of digits by the size of the buffer (65 bytes in Go). -/
def formatBits : Nat → Nat → List Char → List Char
  | 0, _, a => a
  | fuel + 1, u, a =>
    if u < 10 then digitByte u :: a
    else formatBits fuel (u / 10) (digitByte (u % 10) :: a)

/-- Decimal rendering `strconv.FormatInt(i, 10)`; it is also what `fmt`'s verb `%d` prints
    and what go-redis sends for an `int` argument (`strconv.AppendInt`). -/
def FormatInt (i : Int) : String :=
  if i < 0 then String.mk ('-' :: formatBits 65 (-i).toNat [])
  else String.mk (formatBits 65 i.toNat [])

/-- The test `'0' <= c && c <= '9'`. -/
def isDigitByte (c : Char) : Bool := decide (48 ≤ c.toNat) && decide (c.toNat ≤ 57)

/-- Value accumulated by the loop `n = n*10 + (c - '0')` over the digits `ds`, started
    at `n`. -/
def digitsValue (n : Nat) (ds : List Char) : Nat :=
  ds.foldl (fun n c => n * 10 + (c.toNat - 48)) n

/-- Loop of `strconv.ParseUint` for base 10 and bit size 0 (the size of `int`), over the
    bytes still to read, `n` being the value so far.  A byte that is not a decimal digit
    is a syntax error (an underscore is accepted only for base 0); `n >= cutoff`, with
    `cutoff = maxUint64/10 + 1`, and `n*10 + d` beyond `maxVal` are range errors. -/
def parseUintLoop : List Char → Nat → Except NumError Nat
  | [], n => .ok n
  | c :: cs, n =>
    if !isDigitByte c then .error .ErrSyntax
    else if n ≥ (2 ^ 64 - 1) / 10 + 1 then .error .ErrRange
    else if n * 10 + (c.toNat - 48) > 2 ^ intSize - 1 then .error .ErrRange
    else parseUintLoop cs (n * 10 + (c.toNat - 48))

/-- Base 10 `strconv.ParseUint(s, 10, 0)`: the empty string is a syntax error. -/
def ParseUint (ds : List Char) : Except NumError Nat :=
  if ds.isEmpty then .error .ErrSyntax else parseUintLoop ds 0

/-- Base 10 `strconv.ParseInt(s, 10, 0)`: an optional sign, then `ParseUint`, then the
    range check against `1 << (intSize-1)`.  A syntax error of `ParseUint` is returned as
    it is; after a range error of `ParseUint` the value is `maxVal`, which fails the range
    check whatever the sign. -/
def ParseInt (s : String) : Except NumError Int :=
  match s.data with
  | [] => .error .ErrSyntax
  | c :: cs =>
    let neg := c == '-'
    let ds := if c == '+' || c == '-' then cs else c :: cs
    match ParseUint ds with
    | .error e => .error e
    | .ok un =>
      if !neg && un ≥ 2 ^ (intSize - 1) then .error .ErrRange
      else if neg && un > 2 ^ (intSize - 1) then .error .ErrRange
      else .ok (if neg then -(un : Int) else (un : Int))

/-- The function `strconv.Atoi`.  Its fast path for short strings computes the same
    result as `ParseInt(s, 10, 0)`, which is its slow path. -/
def Atoi (s : String) : Except NumError Int := ParseInt s

end strconv

/-! ## `strings` and `path` -/

namespace strings

/-- The function `strings.HasPrefix`. -/
def HasPrefix (s pre : String) : Bool := pre.data.isPrefixOf s.data

end strings

namespace path

/-- The backtracking of `path.Clean` on a `..` element,
    `out.w--; for out.w > dotdot && out.index(out.w) != '/' { out.w-- }`,
    on the output buffer kept in reverse (last byte first). -/
def backtrack (dotdot : Nat) : List Char → List Char
  | [] => []
  | c :: out => if dotdot < out.length ∧ c ≠ '/' then backtrack dotdot out else out

/-- Main loop of `path.Clean` over the unread part of the path.  The flag is `true` while
    the inner loop that copies a path element is running; `out` is the output buffer in
    reverse and `dotdot` the index where `..` must stop. -/
def cleanLoop (rooted : Bool) : List Char → Bool → List Char → Nat → List Char
  | [], _, out, _ => out
  | c :: rest, true, out, dotdot =>
    if c = '/' then cleanLoop rooted rest false out dotdot
    else cleanLoop rooted rest true (c :: out) dotdot
  | c :: rest, false, out, dotdot =>
    if c = '/' then
      -- empty path element
      cleanLoop rooted rest false out dotdot
    else if c = '.' ∧ (rest = [] ∨ rest.head? = some '/') then
      -- . element
      cleanLoop rooted rest false out dotdot
    else if c = '.' ∧ rest.head? = some '.' ∧ (rest.tail = [] ∨ rest.tail.head? = some '/') then
      -- .. element: remove to last /
      match rest with
      | [] => out
      | _ :: rest1 =>
        if dotdot < out.length then
          cleanLoop rooted rest1 false (backtrack dotdot out) dotdot
        else if !rooted then
          let out1 := if 0 < out.length then '/' :: out else out
          cleanLoop rooted rest1 false ('.' :: '.' :: out1) (out1.length + 2)
        else
          cleanLoop rooted rest1 false out dotdot
    else
      -- real path element: add slash if needed, then copy the element
      let out1 :=
        if (rooted ∧ out.length ≠ 1) ∨ (¬ rooted ∧ out.length ≠ 0) then '/' :: out else out
      cleanLoop rooted rest true (c :: out1) dotdot

/-- The function `path.Clean`. -/
def Clean (p : String) : String :=
  if p = "" then "."
  else
    let out :=
      if p.data.head? = some '/' then cleanLoop true p.data.tail false ['/'] 1
      else cleanLoop false p.data false [] 0
    if out = [] then "." else String.mk out.reverse

end path

/-! ## The Redis server and the go-redis client -/

namespace redis

/-- Errors a go-redis command can carry: a network error (the server cannot be reached)
    or `redis.Nil` (the key does not exist). -/
inductive Error where
  | network
  | Nil
deriving DecidableEq, Repr

/-- A string value stored under a key, with its time to live (`0`: the key does not
    expire). -/
structure Entry where
  value : String
  expiration : Nat
deriving DecidableEq, Repr

/-- State of the Redis server at `redis-go:6379`, database 0: whether it can be reached,
    and the string entries it holds. -/
structure Server where
  up : Bool
  db : String → Option Entry

/-- Error of `(*StringCmd).Int`: the error of the command, or the one of `strconv.Atoi`. -/
inductive IntError where
  | cmd (e : Error)
  | num (e : strconv.NumError)
deriving DecidableEq, Repr

/-- The call `rdb.Get(ctx, key)`: the value of the command, or its error.  A `GET` does
    not change the server. -/
def Get (srv : Server) (key : String) : Except Error String :=
  if srv.up then
    match srv.db key with
    | some e => .ok e.value
    | none => .error .Nil
  else .error .network

/-- The method `(*StringCmd).Int`: `if cmd.err != nil { return 0, cmd.err }` and
    `strconv.Atoi(cmd.Val())` otherwise. -/
def StringCmd.Int (cmd : Except Error String) : Except IntError Int :=
  match cmd with
  | .error e => .error (.cmd e)
  | .ok val =>
    match strconv.Atoi val with
    | .ok n => .ok n
    | .error e => .error (.num e)

/-- The call `rdb.Set(ctx, key, value, expiration)` with an `int` value: the status of
    the command and the server afterwards.  A reachable server stores the decimal
    rendering of the value under the key, replacing what was there; an unreachable one is
    left as it is. -/
def Set (srv : Server) (key : String) (value : Int) (expiration : Nat) :
    Except Error Unit × Server :=
  if srv.up then
    (.ok (), { srv with db := fun k =>
      if k = key then some ⟨strconv.FormatInt value, expiration⟩ else srv.db k })
  else (.error .network, srv)

end redis

/-! ## `net/http` -/

namespace http

/-- The request-target as `net/http` looks at it: the target `*`
    (`r.RequestURI == "*"`), or any other target, of which the routing reads the path
    `r.URL.Path` that the server parsed from it. -/
inductive Target where
  | star
  | path (p : String)
deriving DecidableEq, Repr

/-- What `net/http` looks at in a `*http.Request` to pick the code that answers it: the
    method and the request-target. -/
structure Request where
  method : String
  target : Target
deriving DecidableEq, Repr

/-- State of an `http.ResponseWriter`: the status code once the header is written, and
    the body written so far. -/
structure ResponseWriter where
  status : Option Nat
  body : String
deriving DecidableEq, Repr

/-- The method `Write` of the response writer: the first write sends the header with
    status 200 when `WriteHeader` was not called. -/
def ResponseWriter.Write (w : ResponseWriter) (p : String) : ResponseWriter :=
  { status := some (w.status.getD 200), body := w.body ++ p }

/-- The function `cleanPath` of `net/http`: the canonical form of a request path. -/
def cleanPath (p : String) : String :=
  if p = "" then "/"
  else
    let p1 := if p.data.head? = some '/' then p else "/" ++ p
    let np := path.Clean p1
    if p1.data.getLast? = some '/' ∧ np ≠ "/" then
      if p1.length = np.length + 1 ∧ strings.HasPrefix p1 np then p1 else np ++ "/"
    else np

/-- The two handler functions `main` registers: the closure of lines 20-22 and the
    closure of lines 24-31. -/
inductive HandlerId where
  | health
  | counter
deriving DecidableEq, Repr

/-- An entry of a `ServeMux`. -/
structure muxEntry where
  h : HandlerId
  pattern : String
deriving DecidableEq, Repr

/-- The fields of `http.ServeMux`: the map `m` from pattern to entry, the slice `es` of
    the entries whose pattern ends in a slash, sorted from longest to shortest, and
    `hosts`, whether any pattern contains a host name. -/
structure ServeMux where
  m : List muxEntry
  es : List muxEntry
  hosts : Bool
deriving DecidableEq, Repr

/-- The function `appendSorted`: insert before the first entry with a shorter pattern. -/
def appendSorted : List muxEntry → muxEntry → List muxEntry
  | [], e => [e]
  | x :: xs, e =>
    if x.pattern.length < e.pattern.length then e :: x :: xs else x :: appendSorted xs e

/-- The method `(*ServeMux).Handle` for a non-empty pattern that is not registered yet
    (it panics otherwise). -/
def ServeMux.Handle (mux : ServeMux) (pattern : String) (h : HandlerId) : ServeMux :=
  let e : muxEntry := ⟨h, pattern⟩
  { m := mux.m ++ [e]
    es := if pattern.data.getLast? = some '/' then appendSorted mux.es e else mux.es
    hosts := mux.hosts || decide (pattern.data.head? ≠ some '/') }

/-- Lookup `mux.m[path]`. -/
def ServeMux.lookup (mux : ServeMux) (path : String) : Option muxEntry :=
  mux.m.find? (fun e => e.pattern = path)

/-- The method `(*ServeMux).match`: an exact match first, then the longest pattern that
    is a prefix of the path. -/
def ServeMux.match_ (mux : ServeMux) (path : String) : Option muxEntry :=
  match mux.lookup path with
  | some v => some v
  | none => mux.es.find? (fun e => strings.HasPrefix path e.pattern)

/-- The method `(*ServeMux).shouldRedirectRLocked`, for a mux without host patterns:
    whether `path` is not registered while `path + "/"` is. -/
def ServeMux.shouldRedirect (mux : ServeMux) (path : String) : Bool :=
  if (mux.lookup path).isSome then false
  else if path.length = 0 then false
  else if (mux.lookup (path ++ "/")).isSome then decide (path.data.getLast? ≠ some '/')
  else false

/-- Outcome of the routing: a registered handler with the pattern that matched, a
    redirect handler, or the not-found handler.  Of the redirect handler only its
    presence is modelled, not the URL it sends the client to nor its status code. -/
inductive Route where
  | registered (h : HandlerId) (pattern : String)
  | redirect
  | notFound
deriving DecidableEq, Repr

/-- The method `(*ServeMux).handler` for a mux without host patterns. -/
def ServeMux.handler (mux : ServeMux) (path : String) : Route :=
  match mux.match_ path with
  | some e => .registered e.h e.pattern
  | none => .notFound

/-- The method `(*ServeMux).Handler`, as a function of the two things it reads in the
    request, `r.Method` and `r.URL.Path`: a `CONNECT` request is matched as it is; the
    path of any other request is cleaned first, and a request whose path is not in
    canonical form gets a redirect handler. -/
def ServeMux.Handler (mux : ServeMux) (method urlPath : String) : Route :=
  if method = "CONNECT" then
    if mux.shouldRedirect urlPath then .redirect
    else mux.handler urlPath
  else
    let path := cleanPath urlPath
    if mux.shouldRedirect path then .redirect
    else if path ≠ urlPath then .redirect
    else mux.handler urlPath

end http

/-! ## `main` -/

/-- What a handler invocation does, in order: a `GET` sent to Redis, a `SET` sent to
    Redis, a write to the response. -/
inductive Event where
  | redisGet (key : String)
  | redisSet (key : String) (value : Int) (expiration : Nat)
  | write (text : String)
deriving DecidableEq, Repr

/-- State threaded through one handler invocation: the response writer, the Redis
    server, and the events so far. -/
structure Run where
  w : http.ResponseWriter
  srv : redis.Server
  trace : List Event

/-- Start of a handler invocation: nothing is written yet. -/
def Run.start (srv : redis.Server) : Run := ⟨⟨none, ""⟩, srv, []⟩

/-- The call `fmt.Fprintf(w, ...)` once the text is formatted. -/
def Run.Fprintf (st : Run) (text : String) : Run :=
  { st with w := st.w.Write text, trace := st.trace ++ [.write text] }

/-- The call `rdb.Get(ctx, key).Int()` inside a handler. -/
def Run.GetInt (st : Run) (key : String) : Except redis.IntError Int × Run :=
  (redis.StringCmd.Int (redis.Get st.srv key), { st with trace := st.trace ++ [.redisGet key] })

/-- The call `rdb.Set(ctx, key, value, expiration)` inside a handler; the returned
    status command is dropped, as in `main`. -/
def Run.Set (st : Run) (key : String) (value : Int) (expiration : Nat) : Run :=
  { st with srv := (redis.Set st.srv key value expiration).2
            trace := st.trace ++ [.redisSet key value expiration] }

/-- Lines 20-22: the handler registered for `"/health"`. -/
def healthHandler (st : Run) : Run := st.Fprintf "OK"

/-- Lines 25-28: `visits, err := rdb.Get(ctx, "visits").Int()` and
    `if err != nil { visits = 0 }`. -/
def visitsOf (res : Except redis.IntError Int) : Int :=
  match res with
  | .ok visits => visits
  | .error _ => 0

/-- Lines 25-29 of the handler registered for `"/"`: read the counter and write the
    response.  Returns the local variable `visits`. -/
def counterRead (st : Run) : Int × Run :=
  let (res, st1) := st.GetInt "visits"
  let visits := visitsOf res
  (visits, st1.Fprintf ("Number of visits is " ++ strconv.FormatInt visits))

/-- Line 30 of the handler registered for `"/"`: `rdb.Set(ctx, "visits", visits+1, 0)`,
    where `visits+1` is an addition of the Go type `int`. -/
def counterWrite (visits : Int) (st : Run) : Run :=
  st.Set "visits" (wrapInt (visits + 1)) 0

/-- Lines 24-31: the handler registered for `"/"`.  `env` is what the rest of the world
    does to the Redis server between the handler's `GET` and its `SET` (`id` when the
    server is left alone). -/
def counterHandler (env : redis.Server → redis.Server) (st : Run) : Run :=
  let (visits, st1) := counterRead st
  counterWrite visits { st1 with srv := env st1.srv }

/-- Lines 20 and 24: the two registrations on `http.DefaultServeMux`. -/
def DefaultServeMux : http.ServeMux :=
  ((⟨[], [], false⟩ : http.ServeMux).Handle "/health" .health).Handle "/" .counter

/-- Line 33: `rdb.Set(ctx, "visits", 0, 0)`. -/
def startup (srv : redis.Server) : redis.Server := (redis.Set srv "visits" 0 0).2

/-- What one request is answered with: the status and the body written, by a
    registered handler or by `net/http` itself (for a `HEAD` request the server sends the
    header only); the answer of a redirect handler, of which neither the status code nor
    the `Location` header is modelled; or the answer of the not-found handler. -/
inductive Reply where
  | response (status : Nat) (body : String)
  | redirect
  | notFound
deriving DecidableEq, Repr

/-- Response of a finished handler invocation: the server sends status 200 when the
    handler returned without writing a header. -/
def Run.reply (st : Run) : Reply := .response (st.w.status.getD 200) st.w.body

/-- One request served: the reply, the Redis server afterwards, and the events. -/
structure Exchange where
  reply : Reply
  srv : redis.Server
  trace : List Event

/-- A finished handler invocation as an exchange. -/
def Run.exchange (st : Run) : Exchange := ⟨st.reply, st.srv, st.trace⟩

/-- Line 34, one request: `http.ListenAndServe(":8080", nil)` serves each request with
    `http.DefaultServeMux`.  A request with the target `*` reaches no handler: the server
    answers `OPTIONS *` itself, with status 200 and an empty body, and
    `(*ServeMux).ServeHTTP` answers any other method with status 400.  Every other request
    is answered by the handler that `(*ServeMux).Handler` selects. -/
def serve (env : redis.Server → redis.Server) (r : http.Request) (srv : redis.Server) :
    Exchange :=
  match r.target with
  | .star =>
    if r.method = "OPTIONS" then ⟨.response 200 "", srv, []⟩
    else ⟨.response 400 "", srv, []⟩
  | .path p =>
    match DefaultServeMux.Handler r.method p with
    | .registered .health _ => (healthHandler (Run.start srv)).exchange
    | .registered .counter _ => (counterHandler env (Run.start srv)).exchange
    | .redirect => ⟨.redirect, srv, []⟩
    | .notFound => ⟨.notFound, srv, []⟩

/-- Requests served one after the other, nobody else touching the Redis server: the
    replies in order and the server at the end. -/
def serveAll : List http.Request → redis.Server → List Reply × redis.Server
  | [], srv => ([], srv)
  | r :: rs, srv =>
    let e := serve id r srv
    let (replies, srv1) := serveAll rs e.srv
    (e.reply :: replies, srv1)

/-- A request `GET /`. -/
def getRoot : http.Request := ⟨"GET", .path "/"⟩

/-- A request `GET /health`. -/
def getHealth : http.Request := ⟨"GET", .path "/health"⟩

/-- Two requests to `"/"` interleaved as read 1, read 2, write 1, write 2: the two
    replies and the Redis server at the end. -/
def interleaved (srv : redis.Server) : Reply × Reply × redis.Server :=
  let (v1, a) := counterRead (Run.start srv)
  let (v2, b) := counterRead (Run.start a.srv)
  let a1 := counterWrite v1 { a with srv := b.srv }
  let b1 := counterWrite v2 { b with srv := a1.srv }
  (a1.reply, b1.reply, b1.srv)

/-- The value of the local variable `visits` after lines 25-28 when the handler for
    `"/"` reads from `srv`: it is the value the response shows. -/
def visitsRead (srv : redis.Server) : Int :=
  visitsOf (redis.StringCmd.Int (redis.Get srv "visits"))

/-- Whether the request is dispatched to the handler registered for `"/"`. -/
def hitsCounter (r : http.Request) : Bool :=
  match r.target with
  | .star => false
  | .path p =>
    match DefaultServeMux.Handler r.method p with
    | .registered .counter _ => true
    | _ => false

/-- The server can be reached and its entry `"visits"` holds the rendering of the Go
    `int` value `v`, without expiration. -/
def Holds (srv : redis.Server) (v : Int) : Prop :=
  srv.up = true ∧ srv.db "visits" = some ⟨strconv.FormatInt v, 0⟩ ∧ minInt ≤ v ∧ v ≤ maxInt

instance (srv : redis.Server) (v : Int) : Decidable (Holds srv v) := by
  unfold Holds; infer_instance

/-- A reachable server holding nothing. -/
def emptyServer : redis.Server := ⟨true, fun _ => none⟩

/-- A reachable server holding `value` under `"visits"`, without expiration, and nothing
    else. -/
def serverWith (value : String) : redis.Server :=
  ⟨true, fun k => if k = "visits" then some ⟨value, 0⟩ else none⟩

/-- A server that cannot be reached. -/
def downServer : redis.Server := ⟨false, fun _ => none⟩

/-- A server that cannot be reached and holds `value` under `"visits"`, without
    expiration. -/
def downWith (value : String) : redis.Server :=
  ⟨false, fun k => if k = "visits" then some ⟨value, 0⟩ else none⟩

/-- The server once it can be reached again, holding what it held. -/
def reachableAgain (srv : redis.Server) : redis.Server := { srv with up := true }

/-! ## Decimal rendering and parsing -/

namespace strconv

theorem digitByte_toNat {d : Nat} (h : d < 10) : (digitByte d).toNat = 48 + d := by
  interval_cases d <;> rfl

theorem isDigitByte_digitByte {d : Nat} (h : d < 10) : isDigitByte (digitByte d) = true := by
  interval_cases d <;> rfl

theorem digitByte_eq_digitChar {d : Nat} (h : d < 10) : digitByte d = Nat.digitChar d := by
  interval_cases d <;> rfl

/-- The digits are put in front of the buffer, which is left as it is. -/
theorem formatBits_append (fuel u : Nat) (a : List Char) :
    formatBits fuel u a = formatBits fuel u [] ++ a := by
  induction fuel generalizing u a with
  | zero => simp [formatBits]
  | succ n ih =>
    unfold formatBits
    split
    · simp
    · rw [ih (u / 10) (digitByte (u % 10) :: a), ih (u / 10) [digitByte (u % 10)]]
      simp

theorem formatBits_all (fuel u : Nat) :
    (formatBits fuel u []).all isDigitByte = true := by
  induction fuel generalizing u with
  | zero => simp [formatBits]
  | succ n ih =>
    unfold formatBits
    split
    · next h => simp [isDigitByte_digitByte h]
    · rw [formatBits_append, List.all_append, ih]
      simp [isDigitByte_digitByte (Nat.mod_lt u (by decide : 10 > 0))]

theorem formatBits_ne_nil (fuel u : Nat) : formatBits (fuel + 1) u [] ≠ [] := by
  unfold formatBits
  split
  · simp
  · rw [formatBits_append]; simp

/-- Reading back the digits of `u` gives `u`, when the buffer is large enough. -/
theorem formatBits_value (fuel u : Nat) (h : u < 10 ^ fuel) :
    digitsValue 0 (formatBits fuel u []) = u := by
  induction fuel generalizing u with
  | zero => simp at h; subst h; simp [formatBits, digitsValue]
  | succ n ih =>
    unfold formatBits
    split
    · next h10 => simp [digitsValue, digitByte_toNat h10]
    · next h10 =>
      have hq : u / 10 < 10 ^ n := by
        rw [Nat.div_lt_iff_lt_mul (by decide)]
        rw [pow_succ] at h; exact h
      have := ih (u / 10) hq
      rw [formatBits_append]
      unfold digitsValue at this ⊢
      rw [List.foldl_append, this]
      simp [digitByte_toNat (Nat.mod_lt u (by decide : 10 > 0))]
      omega

theorem le_digitsValue (ds : List Char) : ∀ n, n ≤ digitsValue n ds := by
  induction ds with
  | nil => intro n; simp [digitsValue]
  | cons c cs ih =>
    intro n
    have := ih (n * 10 + (c.toNat - 48))
    simp only [digitsValue, List.foldl_cons] at this ⊢
    omega

/-- On a string of decimal digits whose value fits 64 bits the loop of `ParseUint`
    returns that value. -/
theorem parseUintLoop_ok (ds : List Char) :
    ∀ n, ds.all isDigitByte = true → digitsValue n ds < 2 ^ 64 →
      parseUintLoop ds n = .ok (digitsValue n ds) := by
  induction ds with
  | nil => intro n _ _; simp [parseUintLoop, digitsValue]
  | cons c cs ih =>
    intro n hall hv
    simp only [List.all_cons, Bool.and_eq_true] at hall
    have hle := le_digitsValue cs (n * 10 + (c.toNat - 48))
    have hv1 : digitsValue (n * 10 + (c.toNat - 48)) cs < 2 ^ 64 := by
      simpa [digitsValue] using hv
    have h1 : n * 10 + (c.toNat - 48) < 2 ^ 64 := lt_of_le_of_lt hle hv1
    have h2 : ¬ (n ≥ (2 ^ 64 - 1) / 10 + 1) := by
      norm_num at h1 ⊢; omega
    have h3 : ¬ (n * 10 + (c.toNat - 48) > 2 ^ intSize - 1) := by
      simp only [intSize]; norm_num at h1 ⊢; omega
    have := ih _ hall.2 hv1
    unfold parseUintLoop
    simp only [hall.1, Bool.not_true, Bool.false_eq_true, if_false, h2, h3]
    rw [this]
    simp [digitsValue]

theorem ParseUint_formatBits (u : Nat) (h : u < 2 ^ 64) :
    ParseUint (formatBits 65 u []) = .ok u := by
  have h65 : u < 10 ^ 65 := lt_trans h (by norm_num)
  have h1 := formatBits_all 65 u
  have h2 := formatBits_ne_nil 64 u
  have h3 := formatBits_value 65 u h65
  unfold ParseUint
  rw [parseUintLoop_ok _ 0 h1 (by rw [h3]; exact h), h3]
  simp [h2]

theorem isDigitByte_not_sign {c : Char} (h : isDigitByte c = true) : c ≠ '+' ∧ c ≠ '-' := by
  constructor <;> (rintro rfl; revert h; decide)

/-- Round trip: `Atoi` reads back every Go `int` from its decimal rendering. -/
theorem Atoi_FormatInt (v : Int) (lo : minInt ≤ v) (hi : v ≤ maxInt) :
    Atoi (FormatInt v) = .ok v := by
  have lo1 : -2 ^ 63 ≤ v := by simpa [minInt, intSize] using lo
  have hi1 : v < 2 ^ 63 := by
    have : v ≤ 2 ^ 63 - 1 := by simpa [maxInt, intSize] using hi
    omega
  unfold Atoi ParseInt FormatInt
  by_cases hneg : v < 0
  · have hu : (-v).toNat < 2 ^ 64 := by omega
    have hle : (-v).toNat ≤ 2 ^ 63 := by omega
    simp [hneg, ParseUint_formatBits _ hu, intSize]
    rw [if_neg (by omega), max_eq_left (by omega)]
    simp
  · have hu : v.toNat < 2 ^ 64 := by omega
    have hlt : v.toNat < 2 ^ 63 := by omega
    simp only [hneg, if_false]
    have hall := formatBits_all 65 v.toNat
    have hp := ParseUint_formatBits _ hu
    match hfb : formatBits 65 v.toNat [] with
    | [] => exact absurd hfb (formatBits_ne_nil 64 _)
    | c :: cs =>
      rw [hfb] at hall hp
      have hc : isDigitByte c = true := by
        simp [List.all_cons] at hall; exact hall.1
      obtain ⟨h1, h2⟩ := isDigitByte_not_sign hc
      simp [h1, h2, hp, intSize]
      rw [if_neg (by omega), max_eq_left (by omega)]

/-- The digit loop computes the digits of the standard decimal rendering of a natural
    number. -/
theorem toDigitsCore_eq_formatBits (u : Nat) :
    ∀ (f1 f2 : Nat) (a : List Char), u < f1 → u < 10 ^ (f2 + 1) →
      Nat.toDigitsCore 10 f1 u a = formatBits (f2 + 1) u a := by
  induction u using Nat.strong_induction_on with
  | _ u ih =>
    intro f1 f2 a h1 h2
    obtain ⟨g1, rfl⟩ : ∃ g, f1 = g + 1 := ⟨f1 - 1, by omega⟩
    unfold Nat.toDigitsCore formatBits
    by_cases h10 : u < 10
    · have hq : u / 10 = 0 := by omega
      have hm : u % 10 = u := by omega
      simp [h10, hq, hm, digitByte_eq_digitChar h10]
    · have hq : u / 10 ≠ 0 := by omega
      have hf2 : f2 ≠ 0 := by
        rintro rfl
        simp at h2
        omega
      obtain ⟨g2, rfl⟩ : ∃ g, f2 = g + 1 := ⟨f2 - 1, by omega⟩
      have hlt : u / 10 < 10 ^ (g2 + 1) := by
        rw [Nat.div_lt_iff_lt_mul (by decide)]
        rw [pow_succ] at h2; exact h2
      simp only [h10, hq, if_false]
      rw [ih (u / 10) (by omega) g1 g2 _ (by omega) hlt,
        digitByte_eq_digitChar (Nat.mod_lt u (by decide : 10 > 0))]

/-- On natural numbers `FormatInt` is the standard decimal rendering. -/
theorem FormatInt_natCast (n : Nat) (h : n < 10 ^ 65) : FormatInt (n : Int) = toString n := by
  have h0 : ¬ ((n : Int) < 0) := by omega
  unfold FormatInt
  simp only [h0, if_false, Int.toNat_ofNat]
  show _ = Nat.repr n
  unfold Nat.repr Nat.toDigits
  rw [toDigitsCore_eq_formatBits n (n + 1) 64 [] (by omega) h]
  rfl

end strconv

/-! ## Arithmetic of the Go type `int` -/

theorem wrapInt_range (z : Int) : minInt ≤ wrapInt z ∧ wrapInt z ≤ maxInt := by
  simp only [wrapInt, minInt, maxInt, intSize]
  norm_num
  omega

theorem wrapInt_of_range {z : Int} (lo : minInt ≤ z) (hi : z ≤ maxInt) : wrapInt z = z := by
  simp only [wrapInt, minInt, maxInt, intSize] at *
  norm_num at *
  omega

/-! ## The handlers -/

/-- The value shown by the handler for `"/"` when it runs against `srv`. -/
theorem counterHandler_reply (env : redis.Server → redis.Server) (srv : redis.Server) :
    (counterHandler env (Run.start srv)).reply =
      .response 200 ("Number of visits is " ++
        strconv.FormatInt (visitsOf (redis.StringCmd.Int (redis.Get srv "visits")))) := by
  simp [counterHandler, counterRead, counterWrite, Run.start, Run.GetInt, Run.Fprintf, Run.Set,
    Run.reply, http.ResponseWriter.Write]

theorem counterHandler_srv (env : redis.Server → redis.Server) (srv : redis.Server) :
    (counterHandler env (Run.start srv)).srv =
      (redis.Set (env srv) "visits"
        (wrapInt (visitsOf (redis.StringCmd.Int (redis.Get srv "visits")) + 1)) 0).2 := by
  simp [counterHandler, counterRead, counterWrite, Run.start, Run.GetInt, Run.Fprintf, Run.Set]

theorem counterHandler_trace (env : redis.Server → redis.Server) (srv : redis.Server) :
    (counterHandler env (Run.start srv)).trace =
      [.redisGet "visits",
       .write ("Number of visits is " ++
        strconv.FormatInt (visitsOf (redis.StringCmd.Int (redis.Get srv "visits")))),
       .redisSet "visits"
        (wrapInt (visitsOf (redis.StringCmd.Int (redis.Get srv "visits")) + 1)) 0] := by
  simp [counterHandler, counterRead, counterWrite, Run.start, Run.GetInt, Run.Fprintf, Run.Set]

theorem Handler_root (m : String) :
    DefaultServeMux.Handler m "/" = .registered .counter "/" := by
  have h1 : DefaultServeMux.shouldRedirect "/" = false := by decide
  have h2 : http.cleanPath "/" = "/" := by decide
  have h3 : DefaultServeMux.handler "/" = .registered .counter "/" := by decide
  simp [http.ServeMux.Handler, h1, h2, h3]

theorem Handler_health (m : String) :
    DefaultServeMux.Handler m "/health" = .registered .health "/health" := by
  have h1 : DefaultServeMux.shouldRedirect "/health" = false := by decide
  have h2 : http.cleanPath "/health" = "/health" := by decide
  have h3 : DefaultServeMux.handler "/health" = .registered .health "/health" := by decide
  simp [http.ServeMux.Handler, h1, h2, h3]

theorem serve_root (env : redis.Server → redis.Server) (m : String) (srv : redis.Server) :
    serve env ⟨m, .path "/"⟩ srv = (counterHandler env (Run.start srv)).exchange := by
  simp [serve, Handler_root]

theorem serve_health (env : redis.Server → redis.Server) (m : String) (srv : redis.Server) :
    serve env ⟨m, .path "/health"⟩ srv = (healthHandler (Run.start srv)).exchange := by
  simp [serve, Handler_health]

/-- Reading the counter from a reachable server that holds the rendering of a Go `int`. -/
theorem GetInt_of_holds {srv : redis.Server} {v : Int} {e : Nat} (hup : srv.up = true)
    (hdb : srv.db "visits" = some ⟨strconv.FormatInt v, e⟩) (lo : minInt ≤ v) (hi : v ≤ maxInt) :
    redis.StringCmd.Int (redis.Get srv "visits") = .ok v := by
  simp [redis.Get, redis.StringCmd.Int, hup, hdb, strconv.Atoi_FormatInt v lo hi]


theorem Atoi_range {s : String} {n : Int} (h : strconv.Atoi s = .ok n) :
    minInt ≤ n ∧ n ≤ maxInt := by
  unfold strconv.Atoi strconv.ParseInt at h
  simp only [minInt, maxInt, intSize]
  norm_num
  split at h
  · simp at h
  · next c cs _ =>
    simp only [intSize] at h
    generalize strconv.ParseUint (if (c == '+' || c == '-') = true then cs else c :: cs) = r at h
    cases r with
    | error e => simp at h
    | ok un =>
      norm_num at h
      by_cases hc : c = '-'
      · simp only [hc, not_true_eq_false, false_and, if_false, true_and, if_true] at h
        split_ifs at h
        injection h with h; omega
      · simp only [hc, not_false_eq_true, false_and, if_false, true_and] at h
        split_ifs at h
        injection h with h; omega

theorem visitsOf_range (srv : redis.Server) :
    minInt ≤ visitsOf (redis.StringCmd.Int (redis.Get srv "visits")) ∧
    visitsOf (redis.StringCmd.Int (redis.Get srv "visits")) ≤ maxInt := by
  cases hg : redis.Get srv "visits" with
  | error e => simp [redis.StringCmd.Int, visitsOf, minInt, maxInt, intSize]
  | ok val =>
    cases ha : strconv.Atoi val with
    | error e => simp [redis.StringCmd.Int, visitsOf, ha, minInt, maxInt, intSize]
    | ok n => simpa [redis.StringCmd.Int, visitsOf, ha] using Atoi_range ha


theorem visitsRead_range (srv : redis.Server) :
    minInt ≤ visitsRead srv ∧ visitsRead srv ≤ maxInt := visitsOf_range srv

theorem FormatInt_zero : strconv.FormatInt 0 = "0" := by decide

theorem FormatInt_one : strconv.FormatInt 1 = "1" := by decide

theorem wrapInt_one : wrapInt (0 + 1) = 1 := by decide

/-! ## The claims -/

/-- C2, as amended: when the server can be reached at startup, the startup write of line
    33 overwrites whatever it held under "visits" with 0 (no expiration), and the first
    request to "/" after it is answered with status 200 and the body
    "Number of visits is 0". -/
theorem startup_initialises_counter (srv : redis.Server) (hup : srv.up = true) :
    (startup srv).db "visits" = some ⟨"0", 0⟩ ∧
    (serve id getRoot (startup srv)).reply = .response 200 "Number of visits is 0" := by
  have hdb : (startup srv).db "visits" = some ⟨strconv.FormatInt 0, 0⟩ := by
    simp [startup, redis.Set, hup]
  have hup1 : (startup srv).up = true := by simp [startup, redis.Set, hup]
  have hread := GetInt_of_holds hup1 hdb (by decide) (by decide)
  refine ⟨by rw [hdb, FormatInt_zero], ?_⟩
  rw [getRoot, serve_root]
  show (counterHandler id (Run.start (startup srv))).reply = _
  rw [counterHandler_reply, hread]
  decide

theorem startup_initialises_counter_witness :
    (serverWith "not a number").up = true ∧
    ((startup (serverWith "not a number")).db "visits" = some ⟨"0", 0⟩ ∧
     (serve id getRoot (startup (serverWith "not a number"))).reply =
       .response 200 "Number of visits is 0") :=
  ⟨rfl, startup_initialises_counter (serverWith "not a number") rfl⟩

/-- C2, as stated, fails when the server cannot be reached while main runs line 33: the
    status of the SET is dropped, the entry keeps its prior content "5", and with the
    server reachable again the first request to "/" is answered "Number of visits is 5". -/
theorem startup_initialises_counter_counterexample :
    (startup (downWith "5")).db "visits" = some ⟨"5", 0⟩ ∧
    (startup (downWith "5")).db "visits" ≠ some ⟨"0", 0⟩ ∧
    (serve id getRoot (reachableAgain (startup (downWith "5")))).reply =
      .response 200 "Number of visits is 5" ∧
    (serve id getRoot (reachableAgain (startup (downWith "5")))).reply ≠
      .response 200 "Number of visits is 0" := by
  decide

/-- C3: when the read of "visits" fails, because the server cannot be reached, or the
    key is absent, or the stored value is rejected by Atoi, the handler for "/" answers
    with status 200 and the body "Number of visits is 0", the same response in the three
    cases. -/
theorem read_failure_masked (env : redis.Server → redis.Server) (srv : redis.Server)
    (h : srv.up = false ∨ srv.db "visits" = none ∨
      ∃ e err, srv.db "visits" = some e ∧ strconv.Atoi e.value = .error err) :
    (counterHandler env (Run.start srv)).reply = .response 200 "Number of visits is 0" := by
  have herr : ∃ err, redis.StringCmd.Int (redis.Get srv "visits") = .error err := by
    by_cases hup : srv.up = true
    · rcases h with h | h | ⟨e, err, h1, h2⟩
      · simp [hup] at h
      · exact ⟨.cmd .Nil, by simp [redis.Get, redis.StringCmd.Int, hup, h]⟩
      · exact ⟨.num err, by simp [redis.Get, redis.StringCmd.Int, hup, h1, h2]⟩
    · exact ⟨.cmd .network, by simp [redis.Get, redis.StringCmd.Int, hup]⟩
  obtain ⟨err, herr⟩ := herr
  rw [counterHandler_reply, herr]
  simp only [visitsOf]
  decide

theorem read_failure_masked_witness :
    (downServer.up = false ∨ downServer.db "visits" = none ∨
      ∃ e err, downServer.db "visits" = some e ∧ strconv.Atoi e.value = .error err) ∧
    (counterHandler id (Run.start downServer)).reply =
      .response 200 "Number of visits is 0" :=
  ⟨Or.inl rfl, read_failure_masked id downServer (Or.inl rfl)⟩

/-- C4: whatever the method and the state of the Redis server, reachable or not, a
    request with path "/health" is answered with status 200 and the body "OK"; the
    handler sends no Redis command and the server is left exactly as it was. -/
theorem health_ok (env : redis.Server → redis.Server) (m : String) (srv : redis.Server) :
    (serve env ⟨m, .path "/health"⟩ srv).reply = .response 200 "OK" ∧
    (serve env ⟨m, .path "/health"⟩ srv).srv = srv ∧
    (serve env ⟨m, .path "/health"⟩ srv).trace = [.write "OK"] := by
  rw [serve_health]
  refine ⟨?_, rfl, rfl⟩
  simp [healthHandler, Run.exchange, Run.reply, Run.Fprintf, Run.start,
    http.ResponseWriter.Write]

/-- C6: the response of the handler for "/" has status 200 and a body computed from the
    outcome of the read alone; whatever happens to the server between the read and the
    write, so whether the SET succeeds or fails, the response is the same. -/
theorem store_errors_not_surfaced :
    ∃ body : Except redis.IntError Int → String,
      ∀ (srv : redis.Server) (env1 env2 : redis.Server → redis.Server),
        (counterHandler env1 (Run.start srv)).reply =
          .response 200 (body (redis.StringCmd.Int (redis.Get srv "visits"))) ∧
        (counterHandler env1 (Run.start srv)).reply =
          (counterHandler env2 (Run.start srv)).reply :=
  ⟨fun res => "Number of visits is " ++ strconv.FormatInt (visitsOf res),
    fun srv env1 env2 => by
      rw [counterHandler_reply, counterHandler_reply]
      exact ⟨rfl, rfl⟩⟩


/-- C5, as amended: a run of the handler for "/" sends GET "visits", then writes the
    response, then sends SET "visits" with the Go int value visits+1 and expiration 0, and
    nothing else; keys other than "visits" are left alone.  When the read gave the
    integer v and the server accepts the write, the entry afterwards holds the rendering
    of visits+1 as a 64-bit int: v+1 when v is below the largest int. -/
theorem counter_request_effects (env : redis.Server → redis.Server) (srv : redis.Server) :
    (counterHandler env (Run.start srv)).trace =
      [.redisGet "visits",
       .write ("Number of visits is " ++ strconv.FormatInt (visitsRead srv)),
       .redisSet "visits" (wrapInt (visitsRead srv + 1)) 0] ∧
    (counterHandler env (Run.start srv)).reply =
      .response 200 ("Number of visits is " ++ strconv.FormatInt (visitsRead srv)) ∧
    (∀ k, k ≠ "visits" → (counterHandler env (Run.start srv)).srv.db k = (env srv).db k) ∧
    (∀ v, redis.StringCmd.Int (redis.Get srv "visits") = .ok v → (env srv).up = true →
      visitsRead srv = v ∧
      (counterHandler env (Run.start srv)).srv.db "visits" =
        some ⟨strconv.FormatInt (wrapInt (v + 1)), 0⟩ ∧
      (v < maxInt → wrapInt (v + 1) = v + 1)) := by
  refine ⟨counterHandler_trace env srv, counterHandler_reply env srv, ?_, ?_⟩
  · intro k hk
    rw [counterHandler_srv]
    by_cases hup : (env srv).up = true <;> simp [redis.Set, hup, hk]
  · intro v hv hup
    have hvr : visitsRead srv = v := by simp [visitsRead, visitsOf, hv]
    have hr := visitsRead_range srv
    rw [hvr] at hr
    refine ⟨hvr, ?_, ?_⟩
    · rw [counterHandler_srv, hv]
      simp [redis.Set, hup, visitsOf]
    · intro hlt
      apply wrapInt_of_range
      · have := hr.1; simp only [minInt, intSize] at *; omega
      · simp only [maxInt, intSize] at *; omega

theorem counter_request_effects_witness :
    (counterHandler id (Run.start (serverWith "41"))).srv.db "visits" =
      some ⟨strconv.FormatInt (wrapInt (41 + 1)), 0⟩ ∧ wrapInt (41 + 1) = 41 + 1 :=
  ⟨((counter_request_effects id (serverWith "41")).2.2.2 41 (by decide) rfl).2.1,
   ((counter_request_effects id (serverWith "41")).2.2.2 41 (by decide) rfl).2.2 (by decide)⟩

/-- C5, as stated, fails at the largest int: the entry holds "9223372036854775807", the
    response shows 9223372036854775807, and the SET carries -9223372036854775808, which is
    what the entry holds afterwards, not 9223372036854775807 + 1. -/
theorem counter_request_effects_counterexample :
    redis.StringCmd.Int (redis.Get (serverWith "9223372036854775807") "visits") =
      .ok 9223372036854775807 ∧
    (counterHandler id (Run.start (serverWith "9223372036854775807"))).reply =
      .response 200 "Number of visits is 9223372036854775807" ∧
    (counterHandler id (Run.start (serverWith "9223372036854775807"))).trace =
      [.redisGet "visits", .write "Number of visits is 9223372036854775807",
       .redisSet "visits" (-9223372036854775808) 0] ∧
    (counterHandler id (Run.start (serverWith "9223372036854775807"))).srv.db "visits" =
      some ⟨"-9223372036854775808", 0⟩ ∧
    (counterHandler id (Run.start (serverWith "9223372036854775807"))).srv.db "visits" ≠
      some ⟨strconv.FormatInt (9223372036854775807 + 1), 0⟩ := by
  decide

theorem serve_getRoot_reply (env : redis.Server → redis.Server) (srv : redis.Server) :
    (serve env getRoot srv).reply =
      .response 200 ("Number of visits is " ++ strconv.FormatInt (visitsRead srv)) := by
  rw [getRoot, serve_root]
  exact counterHandler_reply env srv

theorem serve_getRoot_srv (env : redis.Server → redis.Server) (srv : redis.Server) :
    (serve env getRoot srv).srv =
      (redis.Set (env srv) "visits" (wrapInt (visitsRead srv + 1)) 0).2 := by
  rw [getRoot, serve_root]
  exact counterHandler_srv env srv

theorem counterRead_start (srv : redis.Server) :
    counterRead (Run.start srv) =
      (visitsRead srv,
        ⟨⟨some 200, "Number of visits is " ++ strconv.FormatInt (visitsRead srv)⟩, srv,
          [.redisGet "visits",
           .write ("Number of visits is " ++ strconv.FormatInt (visitsRead srv))]⟩) := by
  simp [counterRead, Run.start, Run.GetInt, Run.Fprintf, http.ResponseWriter.Write, visitsRead]

/-- C8: from a reachable server whose entry holds the int v, below the largest int, the
    interleaving read 1, read 2, write 1, write 2 of two requests to "/" gives two
    responses that both show v and leaves v+1 in the entry: one increment for two
    requests served. -/
theorem lost_update (srv : redis.Server) (v : Int) (e : Nat) (hup : srv.up = true)
    (hdb : srv.db "visits" = some ⟨strconv.FormatInt v, e⟩) (lo : minInt ≤ v)
    (hi : v < maxInt) :
    (interleaved srv).1 = .response 200 ("Number of visits is " ++ strconv.FormatInt v) ∧
    (interleaved srv).2.1 = .response 200 ("Number of visits is " ++ strconv.FormatInt v) ∧
    (interleaved srv).2.2.db "visits" = some ⟨strconv.FormatInt (v + 1), 0⟩ ∧
    redis.StringCmd.Int (redis.Get (interleaved srv).2.2 "visits") = .ok (v + 1) ∧
    v + 1 < v + 2 := by
  have hi1 : v ≤ maxInt := le_of_lt hi
  have hread : visitsRead srv = v := by
    simp [visitsRead, GetInt_of_holds hup hdb lo hi1, visitsOf]
  have hw : wrapInt (v + 1) = v + 1 := by
    apply wrapInt_of_range
    · simp only [minInt, intSize] at *; omega
    · simp only [maxInt, intSize] at *; omega
  have hlo1 : minInt ≤ v + 1 := by simp only [minInt, intSize] at *; omega
  have hhi1 : v + 1 ≤ maxInt := by simp only [maxInt, intSize] at *; omega
  have hfin : (interleaved srv).2.2.db "visits" = some ⟨strconv.FormatInt (v + 1), 0⟩ := by
    simp [interleaved, counterRead_start, counterWrite, Run.Set, redis.Set, hup, hread, hw]
  have hupfin : (interleaved srv).2.2.up = true := by
    simp [interleaved, counterRead_start, counterWrite, Run.Set, redis.Set, hup]
  refine ⟨?_, ?_, hfin, GetInt_of_holds hupfin hfin hlo1 hhi1, by omega⟩
  · simp [interleaved, counterRead_start, counterWrite, Run.Set, Run.reply, hread]
  · simp [interleaved, counterRead_start, counterWrite, Run.Set, Run.reply, hread]

theorem lost_update_witness :
    (interleaved (startup emptyServer)).1 = .response 200 ("Number of visits is " ++ strconv.FormatInt 0) ∧
    (interleaved (startup emptyServer)).2.1 = .response 200 ("Number of visits is " ++ strconv.FormatInt 0) ∧
    (interleaved (startup emptyServer)).2.2.db "visits" = some ⟨strconv.FormatInt (0 + 1), 0⟩ ∧
    redis.StringCmd.Int (redis.Get (interleaved (startup emptyServer)).2.2 "visits") = .ok (0 + 1) ∧
    (0 : Int) + 1 < 0 + 2 :=
  lost_update (startup emptyServer) 0 0 rfl rfl (by decide) (by decide)

/-- C10: when a reachable server has no entry "visits", or one whose value Atoi rejects,
    one request to "/" reports 0 and leaves the entry holding "1", whatever it held; the
    next request reports 1. -/
theorem failed_read_resets (srv : redis.Server) (hup : srv.up = true)
    (h : srv.db "visits" = none ∨
      ∃ e err, srv.db "visits" = some e ∧ strconv.Atoi e.value = .error err) :
    (serve id getRoot srv).reply = .response 200 "Number of visits is 0" ∧
    (serve id getRoot srv).srv.db "visits" = some ⟨"1", 0⟩ ∧
    (serve id getRoot (serve id getRoot srv).srv).reply =
      .response 200 "Number of visits is 1" := by
  have h0 : visitsOf (redis.StringCmd.Int (redis.Get srv "visits")) = 0 := by
    rcases h with h | ⟨e, err, h1, h2⟩
    · simp [redis.Get, redis.StringCmd.Int, hup, h, visitsOf]
    · simp [redis.Get, redis.StringCmd.Int, hup, h1, h2, visitsOf]
  have hsrv : (serve id getRoot srv).srv =
      (redis.Set srv "visits" (wrapInt (0 + 1)) 0).2 := by
    rw [getRoot, serve_root]
    show (counterHandler id (Run.start srv)).srv = _
    rw [counterHandler_srv, h0]; rfl
  have hdb : (serve id getRoot srv).srv.db "visits" = some ⟨strconv.FormatInt 1, 0⟩ := by
    rw [hsrv, wrapInt_one]; simp [redis.Set, hup]
  have hup1 : (serve id getRoot srv).srv.up = true := by
    rw [hsrv]; simp [redis.Set, hup]
  have hread1 := GetInt_of_holds hup1 hdb (by decide) (by decide)
  refine ⟨?_, by rw [hdb, FormatInt_one], ?_⟩
  · rw [serve_getRoot_reply, visitsRead, h0]; decide
  · rw [serve_getRoot_reply, visitsRead, hread1]; decide

theorem failed_read_resets_witness :
    (serverWith "12abc").up = true ∧
    ((serverWith "12abc").db "visits" = none ∨
      ∃ e err, (serverWith "12abc").db "visits" = some e ∧
        strconv.Atoi e.value = .error err) ∧
    ((serve id getRoot (serverWith "12abc")).reply = .response 200 "Number of visits is 0" ∧
     (serve id getRoot (serverWith "12abc")).srv.db "visits" = some ⟨"1", 0⟩ ∧
     (serve id getRoot (serve id getRoot (serverWith "12abc")).srv).reply =
       .response 200 "Number of visits is 1") :=
  ⟨rfl, Or.inr ⟨⟨"12abc", 0⟩, .ErrSyntax, rfl, rfl⟩,
    failed_read_resets (serverWith "12abc") rfl (Or.inr ⟨⟨"12abc", 0⟩, .ErrSyntax, rfl, rfl⟩)⟩


/-! ## Sequential runs -/

theorem wrapInt_add (a b : Int) : wrapInt (wrapInt a + b) = wrapInt (a + b) := by
  simp only [wrapInt, intSize]
  norm_num
  omega

theorem Holds_startup {srv : redis.Server} (hup : srv.up = true) : Holds (startup srv) 0 := by
  refine ⟨?_, ?_, by decide, by decide⟩
  · simp [startup, redis.Set, hup]
  · simp [startup, redis.Set, hup]

theorem Holds_visitsRead {srv : redis.Server} {v : Int} (h : Holds srv v) :
    visitsRead srv = v := by
  obtain ⟨hup, hdb, lo, hi⟩ := h
  simp [visitsRead, GetInt_of_holds hup hdb lo hi, visitsOf]

/-- One run of the handler for "/" with the server left alone increments the counter as
    a Go int. -/
theorem Holds_counterHandler {srv : redis.Server} {v : Int} (h : Holds srv v) :
    Holds (counterHandler id (Run.start srv)).srv (wrapInt (v + 1)) := by
  have hv := Holds_visitsRead h
  obtain ⟨hup, hdb, lo, hi⟩ := h
  have hs := counterHandler_srv id srv
  rw [← visitsRead, hv] at hs
  rw [hs]
  refine ⟨?_, ?_, (wrapInt_range _).1, (wrapInt_range _).2⟩
  · simp [redis.Set, hup]
  · simp [redis.Set, hup]

/-- One request, whatever it is, keeps the counter a Go int: it is incremented when the
    request reaches the handler for "/" and left alone otherwise. -/
theorem Holds_serve {srv : redis.Server} {v : Int} (h : Holds srv v) (r : http.Request) :
    Holds (serve id r srv).srv (if hitsCounter r = true then wrapInt (v + 1) else v) := by
  obtain ⟨m, t⟩ := r
  unfold serve hitsCounter
  cases t with
  | star =>
    by_cases hm : m = "OPTIONS"
    · simpa [hm] using h
    · simpa [hm] using h
  | path p =>
    have hsrv : ∀ rt : http.Route,
        Holds (match rt with
          | .registered .health _ => (healthHandler (Run.start srv)).exchange
          | .registered .counter _ => (counterHandler id (Run.start srv)).exchange
          | .redirect => ⟨.redirect, srv, []⟩
          | .notFound => ⟨.notFound, srv, []⟩).srv
        (if (match rt with
          | .registered .counter _ => true
          | _ => false) = true then wrapInt (v + 1) else v) := by
      intro rt
      cases rt with
      | registered hd pat =>
        cases hd with
        | health => simpa [healthHandler, Run.exchange, Run.Fprintf, Run.start] using h
        | counter => simpa [Run.exchange] using Holds_counterHandler h
      | redirect => simpa using h
      | notFound => simpa using h
    exact hsrv (DefaultServeMux.Handler m p)

theorem Holds_serveAll (reqs : List http.Request) :
    ∀ {srv : redis.Server} {v : Int}, Holds srv v →
      Holds (serveAll reqs srv).2 (wrapInt (v + (reqs.countP hitsCounter : Nat))) := by
  induction reqs with
  | nil =>
    intro srv v h
    have hw : wrapInt v = v := wrapInt_of_range h.2.2.1 h.2.2.2
    simpa [serveAll, hw] using h
  | cons r rs ih =>
    intro srv v h
    have h1 := ih (Holds_serve h r)
    simp only [serveAll]
    by_cases hr : hitsCounter r = true
    · simp only [hr, if_true] at h1
      rw [wrapInt_add] at h1
      rw [List.countP_cons_of_pos _ _ hr]
      have e : v + ((List.countP hitsCounter rs + 1 : Nat) : Int)
          = v + 1 + (List.countP hitsCounter rs : Nat) := by push_cast; ring
      rw [e]; exact h1
    · simp only [hr] at h1
      rw [List.countP_cons_of_neg _ _ hr]
      simpa using h1

/-- Replies of `n` requests "GET /" in a row, from a server whose entry holds `v`. -/
theorem serveAll_replicate (n : Nat) :
    ∀ {srv : redis.Server} {v : Int}, Holds srv v →
      (∀ j, j < n → (serveAll (List.replicate n getRoot) srv).1[j]? =
        some (.response 200 ("Number of visits is " ++
          strconv.FormatInt (wrapInt (v + (j : Nat))))))
      ∧ Holds (serveAll (List.replicate n getRoot) srv).2 (wrapInt (v + (n : Nat))) := by
  induction n with
  | zero =>
    intro srv v h
    have hw : wrapInt v = v := wrapInt_of_range h.2.2.1 h.2.2.2
    refine ⟨fun j hj => absurd hj (Nat.not_lt_zero j), ?_⟩
    simpa [serveAll, hw] using h
  | succ n ih =>
    intro srv v h
    have hv := Holds_visitsRead h
    have hstep : Holds (serve id getRoot srv).srv (wrapInt (v + 1)) := by
      have := Holds_counterHandler h
      rw [getRoot, serve_root]; exact this
    obtain ⟨ih1, ih2⟩ := ih hstep
    simp only [List.replicate_succ, serveAll]
    constructor
    · intro j hj
      cases j with
      | zero =>
        have hw : wrapInt v = v := wrapInt_of_range h.2.2.1 h.2.2.2
        simp [serve_getRoot_reply, hv, hw]
      | succ j =>
        have := ih1 j (by omega)
        rw [wrapInt_add] at this
        have e : v + ((j + 1 : Nat) : Int) = v + 1 + (j : Nat) := by push_cast; ring
        rw [e]
        simpa using this
    · rw [wrapInt_add] at ih2
      have e : v + ((n + 1 : Nat) : Int) = v + 1 + (n : Nat) := by push_cast; ring
      rw [e]; exact ih2


/-- C1, as amended: after a startup write that succeeded, when N requests "GET /" are
    served one after the other with 1 ≤ N ≤ 2^63, the k-th reply (1 ≤ k ≤ N) has status
    200 and the body "Number of visits is " followed by the decimal rendering of k-1. -/
theorem sequential_requests (srv0 : redis.Server) (hup : srv0.up = true) (N k : Nat)
    (hk : 1 ≤ k) (hkN : k ≤ N) (hN : N ≤ 2 ^ 63) :
    (serveAll (List.replicate N getRoot) (startup srv0)).1[k - 1]? =
      some (.response 200 ("Number of visits is " ++ toString (k - 1))) := by
  have h := (serveAll_replicate N (Holds_startup hup)).1 (k - 1) (by omega)
  have hlt : ((k - 1 : Nat) : Int) ≤ maxInt := by
    simp only [maxInt, intSize]; norm_num; omega
  have hge : minInt ≤ ((k - 1 : Nat) : Int) := by
    simp only [minInt, intSize]; norm_num; omega
  have h65 : k - 1 < 10 ^ 65 := by
    have : k - 1 < 2 ^ 63 := by omega
    exact lt_trans this (by norm_num)
  rw [zero_add, wrapInt_of_range hge hlt, strconv.FormatInt_natCast _ h65] at h
  exact h

theorem sequential_requests_witness :
    (serverWith "7").up = true ∧ 1 ≤ 3 ∧ 3 ≤ 3 ∧ 3 ≤ 2 ^ 63 ∧
    (serveAll (List.replicate 3 getRoot) (startup (serverWith "7"))).1[3 - 1]? =
      some (.response 200 ("Number of visits is " ++ toString (3 - 1))) :=
  ⟨rfl, by decide, by decide, by decide,
    sequential_requests (serverWith "7") rfl 3 3 (by decide) (by decide) (by decide)⟩

/-- C1, as stated, fails for N = k = 2^63 + 1: the reply to request number 2^63 + 1
    shows -9223372036854775808, not 9223372036854775808. -/
theorem sequential_requests_counterexample :
    (serveAll (List.replicate 9223372036854775809 getRoot) (startup emptyServer)).1[
        9223372036854775809 - 1]? =
      some (.response 200 "Number of visits is -9223372036854775808") ∧
    (serveAll (List.replicate 9223372036854775809 getRoot) (startup emptyServer)).1[
        9223372036854775809 - 1]? ≠
      some (.response 200 ("Number of visits is " ++ toString (9223372036854775809 - 1))) := by
  have h := (serveAll_replicate 9223372036854775809
    (Holds_startup (rfl : emptyServer.up = true))).1 (9223372036854775809 - 1) (by decide)
  have e : strconv.FormatInt (wrapInt (0 + ((9223372036854775809 - 1 : Nat) : Int))) =
      "-9223372036854775808" := by decide
  rw [e] at h
  rw [h]
  exact ⟨rfl, by decide⟩

/-- C7, as amended: after a startup write that succeeded and any sequence of requests,
    the server left alone, the entry "visits" holds the rendering of a Go int v that the
    handler reads back; v is the number of requests that reached the handler for "/",
    reduced to 64 bits, so v is at least 0 as long as fewer than 2^63 of them did. -/
theorem counter_invariant (srv0 : redis.Server) (hup : srv0.up = true)
    (reqs : List http.Request) :
    ∃ v : Int,
      (serveAll reqs (startup srv0)).2.db "visits" = some ⟨strconv.FormatInt v, 0⟩ ∧
      redis.StringCmd.Int (redis.Get (serveAll reqs (startup srv0)).2 "visits") = .ok v ∧
      minInt ≤ v ∧ v ≤ maxInt ∧
      v = wrapInt (reqs.countP hitsCounter : Nat) ∧
      (reqs.countP hitsCounter < 2 ^ 63 → v = (reqs.countP hitsCounter : Nat) ∧ 0 ≤ v) := by
  have h := Holds_serveAll reqs (Holds_startup hup)
  rw [zero_add] at h
  obtain ⟨h1, h2, h3, h4⟩ := h
  refine ⟨_, h2, GetInt_of_holds h1 h2 h3 h4, h3, h4, rfl, ?_⟩
  intro hlt
  have hw : wrapInt (reqs.countP hitsCounter : Nat) = (reqs.countP hitsCounter : Nat) := by
    apply wrapInt_of_range
    · simp only [minInt, intSize]; norm_num; omega
    · simp only [maxInt, intSize]; norm_num; omega
  rw [hw]
  exact ⟨rfl, by omega⟩

theorem counter_invariant_witness :
    emptyServer.up = true ∧
    ∃ v : Int,
      (serveAll [getRoot, getHealth, getRoot] (startup emptyServer)).2.db "visits" =
        some ⟨strconv.FormatInt v, 0⟩ ∧
      redis.StringCmd.Int
        (redis.Get (serveAll [getRoot, getHealth, getRoot] (startup emptyServer)).2 "visits") =
          .ok v ∧
      minInt ≤ v ∧ v ≤ maxInt ∧
      v = wrapInt ([getRoot, getHealth, getRoot].countP hitsCounter : Nat) ∧
      ([getRoot, getHealth, getRoot].countP hitsCounter < 2 ^ 63 →
        v = ([getRoot, getHealth, getRoot].countP hitsCounter : Nat) ∧ 0 ≤ v) :=
  ⟨rfl, counter_invariant emptyServer rfl [getRoot, getHealth, getRoot]⟩

/-- C7, as stated, fails after 2^63 requests "GET /": the entry then holds
    "-9223372036854775808", which the handler reads back as a negative int. -/
theorem counter_invariant_counterexample :
    (serveAll (List.replicate 9223372036854775808 getRoot) (startup emptyServer)).2.db "visits" =
      some ⟨"-9223372036854775808", 0⟩ ∧
    redis.StringCmd.Int (redis.Get
      (serveAll (List.replicate 9223372036854775808 getRoot) (startup emptyServer)).2 "visits") =
        .ok (-9223372036854775808) ∧
    ¬ ((0 : Int) ≤ -9223372036854775808) := by
  have h := (serveAll_replicate 9223372036854775808
    (Holds_startup (rfl : emptyServer.up = true))).2
  have e : wrapInt (0 + ((9223372036854775808 : Nat) : Int)) = -9223372036854775808 := by decide
  rw [e] at h
  obtain ⟨h1, h2, h3, h4⟩ := h
  have hr := GetInt_of_holds h1 h2 h3 h4
  have e2 : strconv.FormatInt (-9223372036854775808) = "-9223372036854775808" := by decide
  rw [e2] at h2
  exact ⟨h2, hr, by decide⟩


/-! ## Routing -/

namespace path

theorem getLast?_cons_of_getLast? {c d : Char} {out : List Char}
    (h : out.getLast? = some d) : (c :: out).getLast? = some d := by
  cases out with
  | nil => simp at h
  | cons x xs => simpa [List.getLast?_cons_cons] using h

/-- Backtracking over a rooted buffer stops at the leading slash. -/
theorem backtrack_rooted (out : List Char) (hlen : 1 < out.length)
    (h : out.getLast? = some '/') : (backtrack 1 out).getLast? = some '/' := by
  induction out with
  | nil => simp at hlen
  | cons c out ih =>
    unfold backtrack
    have hne : out ≠ [] := by
      rintro rfl; simp at hlen
    have hl : out.getLast? = some '/' := by
      cases out with
      | nil => exact absurd rfl hne
      | cons x xs => simpa [List.getLast?_cons_cons] using h
    split
    · next hc => exact ih hc.1 hl
    · exact hl

/-- The loop of `Clean` on a rooted path keeps the leading slash of the buffer. -/
theorem cleanLoop_rooted (n : Nat) :
    ∀ (rest : List Char) (copying : Bool) (out : List Char), rest.length ≤ n →
      out.getLast? = some '/' → (cleanLoop true rest copying out 1).getLast? = some '/' := by
  induction n with
  | zero =>
    intro rest copying out hn h
    have : rest = [] := List.length_eq_zero.mp (Nat.le_zero.mp hn)
    subst this
    simpa [cleanLoop] using h
  | succ n ih =>
    intro rest copying out hn h
    cases rest with
    | nil => simpa [cleanLoop] using h
    | cons c rest =>
      have hr : rest.length ≤ n := by simpa using hn
      cases copying with
      | true =>
        unfold cleanLoop
        split
        · exact ih rest false out hr h
        · exact ih rest true (c :: out) hr (getLast?_cons_of_getLast? h)
      | false =>
        unfold cleanLoop
        split
        · exact ih rest false out hr h
        · split
          · exact ih rest false out hr h
          · split
            · cases rest with
              | nil => simpa using h
              | cons c1 rest1 =>
                have hr1 : rest1.length ≤ n := by
                  simp at hr; omega
                simp only [Bool.not_true, Bool.false_eq_true, if_false]
                split
                · next hlen => exact ih rest1 false _ hr1 (backtrack_rooted out hlen h)
                · exact ih rest1 false out hr1 h
            · apply ih rest true _ hr
              apply getLast?_cons_of_getLast?
              split
              · exact getLast?_cons_of_getLast? h
              · exact h

/-- The function `Clean` returns a rooted path for a rooted path. -/
theorem Clean_rooted (p : String) (h : p.data.head? = some '/') :
    (Clean p).data.head? = some '/' := by
  have hne : p ≠ "" := by
    rintro rfl; simp at h
  have hl := cleanLoop_rooted p.data.tail.length p.data.tail false ['/'] le_rfl rfl
  unfold Clean
  simp only [hne, if_false, h, if_true]
  split
  · next he => rw [he] at hl; simp at hl
  · simpa [List.head?_reverse] using hl

end path


namespace http

theorem head?_append_of_head? {a : List Char} {c : Char} (b : List Char)
    (h : a.head? = some c) : (a ++ b).head? = some c := by
  cases a with
  | nil => simp at h
  | cons x xs => simpa using h

/-- The cleaned path always starts with a slash. -/
theorem cleanPath_rooted (p : String) : (cleanPath p).data.head? = some '/' := by
  unfold cleanPath
  split
  · rfl
  · have hp1 : (if p.data.head? = some '/' then p else "/" ++ p).data.head? = some '/' := by
      split
      · assumption
      · rfl
    generalize (if p.data.head? = some '/' then p else "/" ++ p) = p1 at hp1
    have hc := path.Clean_rooted p1 hp1
    simp only
    split
    · split
      · exact hp1
      · rw [String.data_append]; exact head?_append_of_head? _ hc
    · exact hc

/-- A path in canonical form starts with a slash. -/
theorem rooted_of_cleanPath_eq {p : String} (h : cleanPath p = p) :
    p.data.head? = some '/' := by
  rw [← h]; exact cleanPath_rooted p

theorem DefaultServeMux_m :
    DefaultServeMux.m = [⟨.health, "/health"⟩, ⟨.counter, "/"⟩] := by decide

theorem DefaultServeMux_es : DefaultServeMux.es = [⟨.counter, "/"⟩] := by decide

theorem lookup_eq (p : String) :
    DefaultServeMux.lookup p =
      if p = "/health" then some ⟨.health, "/health"⟩
      else if p = "/" then some ⟨.counter, "/"⟩ else none := by
  unfold ServeMux.lookup
  rw [DefaultServeMux_m]
  by_cases h1 : p = "/health"
  · subst h1; rfl
  · by_cases h2 : p = "/"
    · subst h2; rfl
    · have h1a : ¬ ("/health" = p) := fun h => h1 h.symm
      have h2a : ¬ ("/" = p) := fun h => h2 h.symm
      simp [List.find?, h1, h2, h1a, h2a]

theorem append_slash_ne_health (p : String) : p ++ "/" ≠ "/health" := by
  intro h
  have hd : (p ++ "/").data.getLast? = ("/health" : String).data.getLast? := by rw [h]
  rw [String.data_append] at hd
  have : ("/" : String).data = ['/'] := rfl
  rw [this, List.getLast?_append] at hd
  revert hd
  simp

theorem append_slash_eq_slash {p : String} (h : p ++ "/" = "/") : p.length = 0 := by
  have hd : (p ++ "/").data.length = ("/" : String).data.length := by rw [h]
  rw [String.data_append, List.length_append] at hd
  have h1 : ("/" : String).data.length = 1 := rfl
  rw [h1] at hd
  show p.data.length = 0
  omega

/-- No request is answered with the redirect that adds a trailing slash: the only
    registered pattern that ends in a slash is "/" itself. -/
theorem shouldRedirect_eq_false (p : String) : DefaultServeMux.shouldRedirect p = false := by
  unfold ServeMux.shouldRedirect
  split
  · rfl
  · split
    · rfl
    · next hlen =>
      rw [lookup_eq (p ++ "/")]
      simp only [append_slash_ne_health p, if_false]
      split
      · next h => exact absurd (append_slash_eq_slash h) hlen
      · rfl

/-- Matching a rooted path: "/health" itself goes to the health handler, every other
    rooted path to the handler for "/". -/
theorem handler_rooted (p : String) (h : p.data.head? = some '/') :
    DefaultServeMux.handler p =
      if p = "/health" then .registered .health "/health" else .registered .counter "/" := by
  unfold ServeMux.handler ServeMux.match_
  rw [lookup_eq, DefaultServeMux_es]
  by_cases h1 : p = "/health"
  · simp [h1]
  · by_cases h2 : p = "/"
    · simp [h2]
    · have hpre : strings.HasPrefix p "/" = true := by
        unfold strings.HasPrefix
        cases hd : p.data with
        | nil => rw [hd] at h; simp at h
        | cons c cs =>
          rw [hd] at h
          simp at h
          subst h
          have : ("/" : String).data = ['/'] := rfl
          rw [this]
          simp [List.isPrefixOf]
      simp [h1, h2, List.find?, hpre]

end http


/-- Dispatch of a request whose path is rooted and, unless the method is CONNECT, in
    canonical form. -/
theorem Handler_canonical (m p : String)
    (h : if m = "CONNECT" then p.data.head? = some '/' else http.cleanPath p = p) :
    DefaultServeMux.Handler m p =
      if p = "/health" then .registered .health "/health"
      else .registered .counter "/" := by
  unfold http.ServeMux.Handler
  by_cases hm : m = "CONNECT"
  · simp only [hm, if_true] at h
    simp only [hm, if_true, http.shouldRedirect_eq_false, Bool.false_eq_true, if_false]
    exact http.handler_rooted p h
  · simp only [hm, if_false] at h
    simp only [hm, if_false, h, http.shouldRedirect_eq_false, Bool.false_eq_true, ne_eq,
      not_true_eq_false]
    exact http.handler_rooted p (http.rooted_of_cleanPath_eq h)

/-- C9, as amended: main registers the two patterns "/health" and "/" and no method
    filter.  For every method, a request whose path is exactly "/health" goes to the
    health handler.  A request with another path goes to the handler for "/", which
    reads the counter, answers "Number of visits is " followed by the value and sends the
    SET of the Go int value+1, provided the path is in canonical form (it equals its
    cleaned form; for the method CONNECT, whose path is not cleaned: it starts with a
    slash). -/
theorem mux_routing (m p : String) (env : redis.Server → redis.Server)
    (srv : redis.Server) :
    DefaultServeMux.m.map (fun e => e.pattern) = ["/health", "/"] ∧
    (p = "/health" →
      DefaultServeMux.Handler m p = .registered .health "/health" ∧
      serve env ⟨m, .path p⟩ srv = (healthHandler (Run.start srv)).exchange) ∧
    (p ≠ "/health" →
      (if m = "CONNECT" then p.data.head? = some '/' else http.cleanPath p = p) →
      DefaultServeMux.Handler m p = .registered .counter "/" ∧
      serve env ⟨m, .path p⟩ srv = (counterHandler env (Run.start srv)).exchange ∧
      (serve env ⟨m, .path p⟩ srv).reply =
        .response 200 ("Number of visits is " ++ strconv.FormatInt (visitsRead srv)) ∧
      (serve env ⟨m, .path p⟩ srv).trace =
        [.redisGet "visits",
         .write ("Number of visits is " ++ strconv.FormatInt (visitsRead srv)),
         .redisSet "visits" (wrapInt (visitsRead srv + 1)) 0]) := by
  refine ⟨by decide, ?_, ?_⟩
  · intro hp
    subst hp
    exact ⟨Handler_health m, serve_health env m srv⟩
  · intro hp hc
    have hH : DefaultServeMux.Handler m p = .registered .counter "/" := by
      rw [Handler_canonical m p hc, if_neg hp]
    have hs : serve env ⟨m, .path p⟩ srv = (counterHandler env (Run.start srv)).exchange := by
      simp [serve, hH]
    refine ⟨hH, hs, ?_, ?_⟩
    · rw [hs]; exact counterHandler_reply env srv
    · rw [hs]; exact counterHandler_trace env srv

theorem mux_routing_witness :
    (DefaultServeMux.Handler "POST" "/health" = .registered .health "/health" ∧
     serve id ⟨"POST", .path "/health"⟩ (serverWith "5") =
       (healthHandler (Run.start (serverWith "5"))).exchange) ∧
    (DefaultServeMux.Handler "DELETE" "/healthz" = .registered .counter "/" ∧
     serve id ⟨"DELETE", .path "/healthz"⟩ (serverWith "5") =
       (counterHandler id (Run.start (serverWith "5"))).exchange ∧
     (serve id ⟨"DELETE", .path "/healthz"⟩ (serverWith "5")).reply =
       .response 200 ("Number of visits is " ++
         strconv.FormatInt (visitsRead (serverWith "5"))) ∧
     (serve id ⟨"DELETE", .path "/healthz"⟩ (serverWith "5")).trace =
       [.redisGet "visits",
        .write ("Number of visits is " ++ strconv.FormatInt (visitsRead (serverWith "5"))),
        .redisSet "visits" (wrapInt (visitsRead (serverWith "5") + 1)) 0]) :=
  ⟨(mux_routing "POST" "/health" id (serverWith "5")).2.1 rfl,
   (mux_routing "DELETE" "/healthz" id (serverWith "5")).2.2 (by decide) (by decide)⟩

/-- C9, as stated, fails for the path "/a//b": it is not "/health", yet the request
    "GET /a//b" does not reach the handler for "/"; it is answered by a redirect handler,
    no Redis command is sent, the counter is not shown, and the entry "visits" is left as
    it was.  And the handler for "/" writes the Go int value+1: for "GET /" with the entry
    at 9223372036854775807 the SET carries -9223372036854775808. -/
theorem mux_routing_counterexample :
    ("/a//b" : String) ≠ "/health" ∧
    DefaultServeMux.Handler "GET" "/a//b" = .redirect ∧
    DefaultServeMux.Handler "GET" "/a//b" ≠ .registered .counter "/" ∧
    (serve id ⟨"GET", .path "/a//b"⟩ (serverWith "5")).reply = .redirect ∧
    (serve id ⟨"GET", .path "/a//b"⟩ (serverWith "5")).reply ≠
      .response 200 "Number of visits is 5" ∧
    (serve id ⟨"GET", .path "/a//b"⟩ (serverWith "5")).trace = [] ∧
    (serve id ⟨"GET", .path "/a//b"⟩ (serverWith "5")).srv.db "visits" = some ⟨"5", 0⟩ ∧
    (serve id ⟨"GET", .path "/"⟩ (serverWith "9223372036854775807")).trace =
      [.redisGet "visits", .write "Number of visits is 9223372036854775807",
       .redisSet "visits" (-9223372036854775808) 0] := by
  decide

end GoRedisApp
